import Mathlib

/-!
Verification of the scene/transition orchestration core of the
"ninas-beats" terminal animation player.

Shallow embedding conventions:
* Python `float` values are modelled as `ℚ`.  Every quantity the claims
  compare is obtained by additions, subtractions, multiplications and
  divisions of small decimal constants, all exactly representable, so the
  rational model agrees with the binary floating point of the source on
  each claim's inputs.
* Python `int` values are modelled as `ℕ` (they never go negative here);
  `int(x * 0.75)` on a non-negative integer `x` is exact float truncation
  and equals `x * 3 / 4` with natural division.
* Exceptions are modelled with `Except String`.
* Side effects on scene objects (`enter`, `exit`, `update`, `render`) are
  modelled as an emitted event trace `List Ev`.
-/

namespace NinasBeats

/-! ## src/lyric_sync.py -/

/-- `LyricEntry` dataclass (src/lyric_sync.py lines 13-23): a single lyric
with timestamp and optional scene trigger. -/
structure LyricEntry where
  time : ℚ
  text : String
  scene : Option String
deriving Repr, DecidableEq

/-- `LyricEntry.__post_init__`: raises `ValueError` when `time < 0`.
`mkLyricEntry` is Python construction of a `LyricEntry`, which runs the
dataclass `__post_init__` check. -/
def mkLyricEntry (time : ℚ) (text : String) (scene : Option String) :
    Except String LyricEntry :=
  if time < 0 then .error "Lyric time cannot be negative"
  else .ok ⟨time, text, scene⟩

/-- Python truthiness of the `scene : Optional[str]` field, as used by
`if entry.scene and ...`: `None` and the empty string are falsy. -/
def sceneTruthy : Option String → Bool
  | none => false
  | some s => s ≠ ""

/-- Stable insertion used to model Python's stable `sorted(entries,
key=lambda e: e.time)` (src/lyric_sync.py line 39). -/
def insertByTime (x : LyricEntry) : List LyricEntry → List LyricEntry
  | [] => [x]
  | y :: ys => if y.time < x.time then y :: insertByTime x ys else x :: y :: ys

/-- `sorted(entries, key=lambda e: e.time)`: stable ascending sort. -/
def sortByTime (l : List LyricEntry) : List LyricEntry :=
  l.foldr insertByTime []

/-- `LyricMap` (src/lyric_sync.py lines 26-41) together with the mutable
one-shot trigger cursor `_last_triggered_scene_time` that
`get_scene_trigger` lazily initialises to `-1.0` (lines 102-103); the
constructor model sets it to that initial value directly. -/
structure LyricMap where
  entries : List LyricEntry
  duration : ℚ
  finale_message : String
  lastTriggeredSceneTime : ℚ
deriving Repr, DecidableEq

/-- Default finale message (src/lyric_sync.py line 29). -/
def defaultFinaleMessage : String := "Forever yours,\nAhsan ♥"

/-- `LyricMap.__init__`: sorts the entries by time and stores duration and
finale message; the trigger cursor starts at its lazy-init value `-1.0`. -/
def LyricMap.init (entries : List LyricEntry) (duration : ℚ)
    (finale_message : String) : LyricMap :=
  { entries := sortByTime entries
    duration := duration
    finale_message := finale_message
    lastTriggeredSceneTime := -1 }

/-- The parsed shape of one record of `data["lyrics"]` in `lyrics.json`:
`{"time": ..., "text": ..., "scene": optional}`. -/
structure LyricItem where
  time : ℚ
  text : String
  scene : Option String
deriving Repr, DecidableEq

/-- The parsed shape of the whole `lyrics.json` document, with the
optional top-level fields read via `data.get`. -/
structure LyricsJson where
  lyrics : List LyricItem
  duration_seconds : Option ℚ
  finale_msg : Option String
deriving Repr, DecidableEq

/-- The entry-building loop of `LyricMap.from_json` (src/lyric_sync.py
lines 57-63), after JSON parsing: builds a `LyricEntry` for each record
in order; the dataclass `__post_init__` check can raise, which aborts
the load. -/
def buildEntries : List LyricItem → Except String (List LyricEntry)
  | [] => .ok []
  | item :: rest => do
    let e ← mkLyricEntry item.time item.text item.scene
    let es ← buildEntries rest
    pure (e :: es)

/-- `LyricMap.from_json` continued: builds the entries and constructs the
map with defaulted duration and finale message. -/
def LyricMap.from_json (data : LyricsJson) : Except String LyricMap := do
  let entries ← buildEntries data.lyrics
  pure (LyricMap.init entries (data.duration_seconds.getD 180)
    (data.finale_msg.getD defaultFinaleMessage))

/-- Loop body of `LyricMap.get_lyric_at` (src/lyric_sync.py lines 80-86):
walk the entries in order carrying the previous entry; on the first entry
with `entry.time > time` return the previous one (`None` when there is no
previous); when no entry exceeds, the carried value is `entries[-1]`
(or `None` for an empty list). -/
def lyricAtGo (t : ℚ) : List LyricEntry → Option LyricEntry → Option LyricEntry
  | [], prev => prev
  | e :: rest, prev => if t < e.time then prev else lyricAtGo t rest (some e)

/-- `LyricMap.get_lyric_at` (src/lyric_sync.py lines 70-86). -/
def LyricMap.get_lyric_at (m : LyricMap) (t : ℚ) : Option LyricEntry :=
  lyricAtGo t m.entries none

/-- The combined condition `entry.scene and entry.time <= time` of
src/lyric_sync.py line 106. -/
def trigPred (t : ℚ) (e : LyricEntry) : Bool :=
  sceneTruthy e.scene && decide (e.time ≤ t)

/-- Loop body of `LyricMap.get_scene_trigger` (src/lyric_sync.py lines
105-112) over the already-reversed entry list: the first entry with a
truthy `scene` and `time <= t` decides the outcome — it is returned when
its time beats the cursor `c`, otherwise the loop `break`s with no
result. -/
def sceneTrigGo (t c : ℚ) : List LyricEntry → Option LyricEntry
  | [] => none
  | e :: rest =>
    if trigPred t e then
      (if c < e.time then some e else none)
    else sceneTrigGo t c rest

/-- `LyricMap.get_scene_trigger` (src/lyric_sync.py lines 88-114): scans
`reversed(self.entries)`; on a fire it returns the entry's scene and
advances the cursor to the entry's time, otherwise returns `None` with
the map unchanged. -/
def LyricMap.get_scene_trigger (m : LyricMap) (t : ℚ) :
    Option String × LyricMap :=
  match sceneTrigGo t m.lastTriggeredSceneTime m.entries.reverse with
  | some e => (e.scene, { m with lastTriggeredSceneTime := e.time })
  | none => (none, m)

/-! ## src/particle.py -/

/-- `Particle` dataclass (src/particle.py lines 13-35).  The `color`
field (a Rich `Color`) is modelled as an RGB triple; it plays no role in
the physics. -/
structure Particle where
  x : ℚ
  y : ℚ
  vx : ℚ
  vy : ℚ
  gravity : ℚ
  drag : ℚ
  life : ℚ
  max_life : ℚ
  char : String
  color : ℕ × ℕ × ℕ
deriving Repr, DecidableEq

/-- `Particle.update` (src/particle.py lines 37-63): gravity, drag,
position integration and life decay, in source order. -/
def Particle.update (p : Particle) (dt : ℚ) : Particle :=
  let vy1 := p.vy + p.gravity * dt
  let drag_factor := max 0 (1 - p.drag * dt)
  let vx2 := p.vx * drag_factor
  let vy2 := vy1 * drag_factor
  { p with
    vx := vx2
    vy := vy2
    x := p.x + vx2 * dt
    y := p.y + vy2 * dt
    life := p.life - dt / p.max_life }

/-- `Particle.is_alive` (src/particle.py lines 65-67): `life > 0`. -/
def Particle.is_alive (p : Particle) : Bool :=
  0 < p.life

/-! ## src/director.py -/

/-- Performance constants (src/director.py lines 14-20). -/
def TARGET_FPS : ℕ := 30

/-- `FRAME_TIME = 1.0 / TARGET_FPS` (src/director.py line 16). -/
def FRAME_TIME : ℚ := 1 / (TARGET_FPS : ℚ)

/-- `INITIAL_PARTICLE_BUDGET = 500` (src/director.py line 17). -/
def INITIAL_PARTICLE_BUDGET : ℕ := 500

/-- `MIN_PARTICLE_BUDGET = 50` (src/director.py line 18). -/
def MIN_PARTICLE_BUDGET : ℕ := 50

/-- `LAG_THRESHOLD_MULTIPLIER = 1.5` (src/director.py line 19). -/
def LAG_THRESHOLD_MULTIPLIER : ℚ := 3 / 2

/-- `FADE_DURATION = 0.5` (src/director.py line 20). -/
def FADE_DURATION : ℚ := 1 / 2

/-- `SceneContext` dataclass (src/scenes/base.py lines 18-26). -/
structure SceneContext where
  console_width : ℕ
  console_height : ℕ
  song_time : ℚ
  scene_time : ℚ
  beat_intensity : ℚ
  is_transitioning : Bool
deriving Repr, DecidableEq

/-- A constructed scene instance.  The orchestration core treats scenes
opaquely through their lifecycle contract, so an instance is modelled by
the registry name it was constructed for, the `SceneContext` passed to
the constructor, and the extra `finale_message` keyword argument that
`Director._complete_transition` passes only to the finale scene
(src/director.py lines 160-164). -/
structure SceneInst where
  name : String
  ctx : SceneContext
  finale_arg : Option String
deriving Repr, DecidableEq

/-- Observable lifecycle events a Director step emits on its scene
objects, in call order. -/
inductive Ev where
  | updateEv (scene : String)
  | renderEv (scene : String) (alpha : ℚ)
  | exitEv (scene : String)
  | enterEv (scene : String)
deriving Repr, DecidableEq

/-- `Director` state (src/director.py lines 50-67), merged with the
fields of its `DirectorState` that the orchestration core reads or
writes (`state.current_time`, performance fields).  The scene registry
`scenes` keeps the dict's keys: each key is bound to the scene class
registered under it, and an instance constructed from it is tagged with
that name. -/
structure Director where
  scenes : List String
  current_scene : Option SceneInst
  next_scene_name : Option String
  transition_alpha : ℚ
  transitioning_scene : Option SceneInst
  lyric_map : LyricMap
  state_current_time : ℚ
  scene_start_time : ℚ
  last_frame_time : ℚ
  fps : ℚ
  particle_budget : ℕ
deriving Repr, DecidableEq

/-- `Director.__init__` (src/director.py lines 53-67). -/
def Director.init (lm : LyricMap) : Director :=
  { scenes := []
    current_scene := none
    next_scene_name := none
    transition_alpha := 0
    transitioning_scene := none
    lyric_map := lm
    state_current_time := 0
    scene_start_time := 0
    last_frame_time := 0
    fps := 0
    particle_budget := INITIAL_PARTICLE_BUDGET }

/-- `Director.register_scene` (src/director.py lines 69-77): dict insert,
keyed by name. -/
def Director.register_scene (d : Director) (name : String) : Director :=
  if name ∈ d.scenes then d else { d with scenes := d.scenes ++ [name] }

/-- `Director.transition_to` (src/director.py lines 79-91): raises
`ValueError` for an unregistered name (before any state is written),
otherwise records the pending name and resets the transition alpha. -/
def Director.transition_to (d : Director) (scene_name : String) :
    Except String Director :=
  if scene_name ∈ d.scenes then
    .ok { d with next_scene_name := some scene_name, transition_alpha := 0 }
  else
    .error ("Unknown scene: " ++ scene_name)

/-- `Director._complete_transition` (src/director.py lines 137-169).
`wall` stands for the `time.time()` wall clock read on line 169.  The
guard `self.next_scene_name == "finale" and self.lyric_map` reduces to
the name test because `self.lyric_map` is always a truthy `LyricMap`
instance.  Returns the new state and the lifecycle events emitted. -/
def Director.completeTransition (d : Director) (wall : ℚ) :
    Director × List Ev :=
  let step : Director × List Ev :=
    match d.transitioning_scene with
    | some ts =>
      let evs := match d.current_scene with
        | some cs => [Ev.exitEv cs.name]
        | none => []
      ({ d with current_scene := some ts, transitioning_scene := none }, evs)
    | none =>
      match d.next_scene_name with
      | some n =>
        if n ∈ d.scenes then
          let ctx : SceneContext :=
            { console_width := 80
              console_height := 24
              song_time := d.state_current_time
              scene_time := 0
              beat_intensity := 0
              is_transitioning := false }
          let evs1 := match d.current_scene with
            | some cs => [Ev.exitEv cs.name]
            | none => []
          let inst : SceneInst :=
            if n = "finale" then
              { name := n, ctx := ctx, finale_arg := some d.lyric_map.finale_message }
            else
              { name := n, ctx := ctx, finale_arg := none }
          ({ d with current_scene := some inst }, evs1 ++ [Ev.enterEv n])
        else (d, [])
      | none => (d, [])
  ({ step.1 with
      next_scene_name := none
      transition_alpha := 0
      scene_start_time := wall }, step.2)

/-- `Director.update_scenes` (src/director.py lines 93-116): update the
current scene, update the transitioning scene, then advance a pending
transition's alpha by `dt / FADE_DURATION` and complete it when the
alpha reaches `1.0`. -/
def Director.update_scenes (d : Director) (dt : ℚ) (wall : ℚ) :
    Director × List Ev :=
  let evs1 := match d.current_scene with
    | some cs => [Ev.updateEv cs.name]
    | none => []
  let evs2 := match d.transitioning_scene with
    | some ts => [Ev.updateEv ts.name]
    | none => []
  match d.next_scene_name with
  | some _ =>
    let a := d.transition_alpha + dt / FADE_DURATION
    let d1 := { d with transition_alpha := a }
    if 1 ≤ a then
      let done := d1.completeTransition wall
      (done.1, evs1 ++ evs2 ++ done.2)
    else
      (d1, evs1 ++ evs2)
  | none => (d, evs1 ++ evs2)

/-- `Director.render_scenes` (src/director.py lines 118-135): with both a
transitioning and a current scene, render current at `1 - alpha` and the
transitioning scene at `alpha`; otherwise render just the current scene
at full opacity. -/
def Director.render_scenes (d : Director) : List Ev :=
  match d.transitioning_scene, d.current_scene with
  | some ts, some cs =>
    [Ev.renderEv cs.name (1 - d.transition_alpha),
     Ev.renderEv ts.name d.transition_alpha]
  | _, _ =>
    match d.current_scene with
    | some cs => [Ev.renderEv cs.name 1]
    | none => []

/-- `Director.monitor_performance` (src/director.py lines 199-218):
record the frame time, derive FPS when the frame time is positive, and
degrade the particle budget by 25% (floored at `MIN_PARTICLE_BUDGET`)
when the frame time exceeds `FRAME_TIME * LAG_THRESHOLD_MULTIPLIER`.
`int(self.state.particle_budget * 0.75)` is exact float arithmetic for
these magnitudes and equals natural division `b * 3 / 4`. -/
def Director.monitor_performance (d : Director) (frame_time : ℚ) : Director :=
  let d1 := { d with last_frame_time := frame_time }
  let d2 := if 0 < frame_time then { d1 with fps := 1 / frame_time } else d1
  if FRAME_TIME * LAG_THRESHOLD_MULTIPLIER < frame_time then
    { d2 with particle_budget := max MIN_PARTICLE_BUDGET (d2.particle_budget * 3 / 4) }
  else d2

/-! ## Derived notions used to state the claims -/

/-- The times at which `get_scene_trigger` fires over a sequence of
queries, threading the map's mutable cursor exactly as repeated calls
do; a fire contributes the updated cursor value, which is the fired
entry's time. -/
def fireTimes (m : LyricMap) : List ℚ → List ℚ
  | [] => []
  | t :: ts =>
    match m.get_scene_trigger t with
    | (some _, m') => m'.lastTriggeredSceneTime :: fireTimes m' ts
    | (none, m') => fireTimes m' ts

/-- `T` is the time of some entry of `l` carrying a truthy scene
trigger. -/
def isTriggerTimeIn (l : List LyricEntry) (T : ℚ) : Prop :=
  ∃ e ∈ l, sceneTruthy e.scene = true ∧ e.time = T

instance (l : List LyricEntry) (T : ℚ) : Decidable (isTriggerTimeIn l T) := by
  unfold isTriggerTimeIn; infer_instance

/-! ## src/main.py: the missing-lyrics branch of load_assets -/

/-- Parameter names of `LyricMap.__init__` (src/lyric_sync.py line 29),
in order after `self`. -/
def lyricMapInitParams : List String := ["entries", "duration", "finale_message"]

/-- The parameters of `LyricMap.__init__` that carry a default value
(`entries` does not). -/
def lyricMapInitDefaulted : List String := ["duration", "finale_message"]

/-- Python keyword-argument binding for a call with keyword arguments
only: it succeeds iff every keyword names a declared parameter and
every parameter without a default is bound; otherwise the call raises
`TypeError` before the function body runs. -/
def kwargsBindOk (params defaulted kwargs : List String) : Bool :=
  kwargs.all (fun k => params.contains k) &&
  params.all (fun p => defaulted.contains p || kwargs.contains p)

/-- The missing-lyrics-file branch of `load_assets` (src/main.py lines
103-109): it executes
`LyricMap(lyrics=[], finale_message="Forever yours,\nAhsan ♥")`,
a keyword call against `LyricMap.__init__(self, entries, duration=...,
finale_message=...)`.  When the binding succeeds the body would produce
the empty default map; the model evaluates the binding as Python
does. -/
def loadAssetsMissingLyrics : Except String LyricMap :=
  if kwargsBindOk lyricMapInitParams lyricMapInitDefaulted
      ["lyrics", "finale_message"] then
    .ok (LyricMap.init [] 180 defaultFinaleMessage)
  else
    .error "TypeError: __init__ got an unexpected keyword argument lyrics"

/-! ## Concrete fixtures used by witnesses and counterexamples -/

/-- The cue map of the spec's §8 scenario: a scene-only cue at `t = 0`
and a lyric-plus-scene cue at `t = 10`. -/
def exMapC : LyricMap :=
  LyricMap.init [⟨0, "", some "intro"⟩, ⟨10, "hi", some "starfield"⟩] 20 "msg"

/-- A Director with the scenes the scenario needs registered. -/
def dC0 : Director :=
  ((Director.init exMapC).register_scene "intro").register_scene "starfield"

/-- The Director after its first completed transition: "intro" is the
current scene. -/
def dC1 : Director :=
  (((dC0.transition_to "intro").toOption.getD dC0).completeTransition 0).1

/-- The Director with a transition to "starfield" pending. -/
def dC2 : Director := (dC1.transition_to "starfield").toOption.getD dC1

/-- A lyrics.json document with two well-formed records. -/
def exJson : LyricsJson :=
  { lyrics := [⟨0, "a", none⟩, ⟨2, "b", some "x"⟩]
    duration_seconds := some 20
    finale_msg := none }

/-- The map `exJson` loads to. -/
def exJsonMap : LyricMap :=
  LyricMap.init [⟨0, "a", none⟩, ⟨2, "b", some "x"⟩] 20 defaultFinaleMessage

/-- The particle of the spec's §8 particle-physics scenario. -/
def testParticle : Particle :=
  { x := 0, y := 0, vx := 0, vy := 0, gravity := 49 / 5, drag := 0
    life := 1, max_life := 2, char := "*", color := (255, 255, 255) }

/-- Entries sorted ascending by time, the `LyricMap` construction
invariant. -/
def timeSorted (l : List LyricEntry) : Prop :=
  List.Pairwise (fun a b => a.time ≤ b.time) l

instance (l : List LyricEntry) : Decidable (timeSorted l) := by
  unfold timeSorted; infer_instance

/-! ## Helper lemmas -/

theorem getLast?_or_cons {α : Type} (a : α) (l : List α) (o : Option α) :
    ((a :: l).getLast?).or o = (l.getLast?).or (some a) := by
  cases l with
  | nil => simp
  | cons b bs =>
    rw [List.getLast?_cons_cons]
    cases hg : (b :: bs).getLast? with
    | none =>
      have h : (b :: bs).getLast?.isSome = true := List.getLast?_isSome.mpr (by simp)
      rw [hg] at h
      simp at h
    | some c => simp

theorem lyricAtGo_eq (t : ℚ) (l : List LyricEntry) :
    timeSorted l →
    ∀ prev, lyricAtGo t l prev =
      ((l.filter (fun e => decide (e.time ≤ t))).getLast?).or prev := by
  induction l with
  | nil => intro _ prev; simp [lyricAtGo]
  | cons e rest ih =>
    intro hp prev
    rw [timeSorted, List.pairwise_cons] at hp
    by_cases h : t < e.time
    · have hrest : List.filter (fun e => decide (e.time ≤ t)) rest = [] := by
        rw [List.filter_eq_nil_iff]
        intro a ha
        simp only [decide_eq_true_eq]
        exact not_le.mpr (lt_of_lt_of_le h (hp.1 a ha))
      have hpe : (decide (e.time ≤ t)) = false := by
        simp only [decide_eq_false_iff_not]
        exact not_le.mpr h
      simp [lyricAtGo, h, List.filter_cons, hpe, hrest]
    · have hpe : (decide (e.time ≤ t)) = true := by
        simp only [decide_eq_true_eq]
        exact not_lt.mp h
      simp only [lyricAtGo, if_neg h, List.filter_cons, hpe, ite_true]
      rw [ih hp.2 (some e), getLast?_or_cons]

theorem time_le_getLast? :
    ∀ (l : List LyricEntry), timeSorted l →
      ∀ x y, x ∈ l → l.getLast? = some y → x.time ≤ y.time := by
  intro l
  induction l with
  | nil => intro _ x y hx _; cases hx
  | cons a rest ih =>
    intro hp x y hx hy
    rw [timeSorted, List.pairwise_cons] at hp
    cases rest with
    | nil =>
      have hxa : x = a := by simpa using hx
      have hya : a = y := by simpa using hy
      rw [hxa, ← hya]
    | cons b bs =>
      rw [List.getLast?_cons_cons] at hy
      rcases List.mem_cons.mp hx with hxa | hxr
      · have hym := List.mem_of_mem_getLast? hy
        rw [hxa]
        exact hp.1 y hym
      · exact ih hp.2 x y hxr hy

theorem find?_eq_head?_filter {α : Type} (p : α → Bool) :
    ∀ l : List α, l.find? p = (l.filter p).head? := by
  intro l
  induction l with
  | nil => rfl
  | cons a rest ih =>
    by_cases h : p a
    · rw [List.find?_cons_of_pos _ h, List.filter_cons, if_pos h]
      rfl
    · rw [List.find?_cons_of_neg _ (by simp [h]), List.filter_cons, if_neg (by simp [h]), ih]

theorem find?_reverse_eq {α : Type} (p : α → Bool) (l : List α) :
    l.reverse.find? p = (l.filter p).getLast? := by
  rw [find?_eq_head?_filter, List.filter_reverse, List.head?_reverse]

theorem sceneTrigGo_eq (t c : ℚ) :
    ∀ l : List LyricEntry, sceneTrigGo t c l =
      match l.find? (trigPred t) with
      | none => none
      | some e => if c < e.time then some e else none := by
  intro l
  induction l with
  | nil => rfl
  | cons e rest ih =>
    by_cases h : trigPred t e
    · rw [List.find?_cons_of_pos _ h]
      simp [sceneTrigGo, h]
    · rw [List.find?_cons_of_neg _ (by simp [h])]
      simp only [sceneTrigGo, h, Bool.false_eq_true, if_false]
      exact ih

theorem get_scene_trigger_eq (m : LyricMap) (t : ℚ) :
    m.get_scene_trigger t =
      match (m.entries.filter (trigPred t)).getLast? with
      | none => (none, m)
      | some e =>
        if m.lastTriggeredSceneTime < e.time
        then (e.scene, { m with lastTriggeredSceneTime := e.time })
        else (none, m) := by
  unfold LyricMap.get_scene_trigger
  rw [sceneTrigGo_eq, find?_reverse_eq]
  cases (m.entries.filter (trigPred t)).getLast? with
  | none => rfl
  | some e =>
    by_cases h : m.lastTriggeredSceneTime < e.time <;> simp [h]

theorem sceneTruthy_some {o : Option String} (h : sceneTruthy o = true) :
    ∃ s, o = some s := by
  cases o with
  | none => simp [sceneTruthy] at h
  | some s => exact ⟨s, rfl⟩

theorem get_scene_trigger_cases (m : LyricMap) (t : ℚ) :
    (∃ e, (m.entries.filter (trigPred t)).getLast? = some e ∧
        m.lastTriggeredSceneTime < e.time ∧
        m.get_scene_trigger t =
          (e.scene, { m with lastTriggeredSceneTime := e.time })) ∨
    m.get_scene_trigger t = (none, m) := by
  have h := get_scene_trigger_eq m t
  cases hg : (m.entries.filter (trigPred t)).getLast? with
  | none =>
    right
    rw [h, hg]
  | some e =>
    rw [hg] at h
    by_cases hc : m.lastTriggeredSceneTime < e.time
    · left
      exact ⟨e, rfl, hc, by rw [h]; simp [hc]⟩
    · right
      rw [h]
      simp [hc]

theorem fireTimes_cons_fire (m m' : LyricMap) (s : String) (t : ℚ) (ts : List ℚ)
    (h : m.get_scene_trigger t = (some s, m')) :
    fireTimes m (t :: ts) = m'.lastTriggeredSceneTime :: fireTimes m' ts := by
  simp [fireTimes, h]

theorem fireTimes_cons_none (m m' : LyricMap) (t : ℚ) (ts : List ℚ)
    (h : m.get_scene_trigger t = (none, m')) :
    fireTimes m (t :: ts) = fireTimes m' ts := by
  simp [fireTimes, h]

/-- The scene field of an entry accepted by `trigPred` is a non-empty
string. -/
theorem trigPred_scene_some {t : ℚ} {e : LyricEntry} (h : trigPred t e = true) :
    ∃ s, e.scene = some s := by
  rw [trigPred, Bool.and_eq_true] at h
  exact sceneTruthy_some h.1

/-- Across any query sequence, the cursor makes the fired times strictly
increase, and every fired time exceeds the starting cursor. -/
theorem fireTimes_increasing :
    ∀ (ts : List ℚ) (m : LyricMap),
      (∀ T ∈ fireTimes m ts, m.lastTriggeredSceneTime < T) ∧
      List.Pairwise (· < ·) (fireTimes m ts) := by
  intro ts
  induction ts with
  | nil =>
    intro m
    constructor
    · intro T h
      simp [fireTimes] at h
    · simp [fireTimes]
  | cons t ts' ih =>
    intro m
    rcases get_scene_trigger_cases m t with ⟨e, hg, hc, heq⟩ | heq
    · have hmemf := List.mem_of_mem_getLast? hg
      obtain ⟨s, hs⟩ := trigPred_scene_some (List.of_mem_filter hmemf)
      have hfire : m.get_scene_trigger t =
          (some s, { m with lastTriggeredSceneTime := e.time }) := by
        rw [heq, hs]
      rw [fireTimes_cons_fire _ _ _ _ _ hfire]
      have h' := ih { m with lastTriggeredSceneTime := e.time }
      constructor
      · intro T hT
        rcases List.mem_cons.mp hT with hTe | hT'
        · rw [hTe]; exact hc
        · exact lt_trans hc (h'.1 T hT')
      · rw [List.pairwise_cons]
        exact ⟨fun T hT => h'.1 T hT, h'.2⟩
    · rw [fireTimes_cons_none _ _ _ _ heq]
      exact ih m

/-- One-shot coverage: a trigger time `T` still above the cursor fires
during any non-decreasing query sequence containing a query at or past
`T` but before every later trigger time. -/
theorem fire_covered :
    ∀ (ts : List ℚ) (m : LyricMap) (T : ℚ),
      timeSorted m.entries →
      List.Pairwise (· ≤ ·) ts →
      isTriggerTimeIn m.entries T →
      m.lastTriggeredSceneTime < T →
      (∃ tq ∈ ts, T ≤ tq ∧
        ∀ U, isTriggerTimeIn m.entries U → T < U → tq < U) →
      T ∈ fireTimes m ts := by
  intro ts
  induction ts with
  | nil =>
    intro m T _ _ _ _ hwit
    obtain ⟨tq, htq, _⟩ := hwit
    cases htq
  | cons t ts' ih =>
    intro m T hs hts htrig hcur hwit
    rw [List.pairwise_cons] at hts
    obtain ⟨tq, htq, hTle, hcov⟩ := hwit
    rcases List.mem_cons.mp htq with htq_head | htq_tail
    · -- the head query covers the crossing point: the step fires T
      subst htq_head
      obtain ⟨eT, heTmem, heTtruthy, heTtime⟩ := htrig
      have heTfilter : eT ∈ m.entries.filter (trigPred tq) := by
        rw [List.mem_filter]
        refine ⟨heTmem, ?_⟩
        rw [trigPred, Bool.and_eq_true, heTtruthy]
        exact ⟨rfl, by simp [heTtime, hTle]⟩
      have hne : m.entries.filter (trigPred tq) ≠ [] :=
        List.ne_nil_of_mem heTfilter
      cases hg : (m.entries.filter (trigPred tq)).getLast? with
      | none =>
        have hsome := List.getLast?_isSome.mpr hne
        rw [hg] at hsome
        simp at hsome
      | some e =>
        have hemem := List.mem_of_mem_getLast? hg
        have hetrig : trigPred tq e = true := List.of_mem_filter hemem
        have heent : e ∈ m.entries := List.mem_of_mem_filter hemem
        rw [trigPred, Bool.and_eq_true, decide_eq_true_eq] at hetrig
        have hTlee : T ≤ e.time := by
          rw [← heTtime]
          exact time_le_getLast? _ (List.Pairwise.filter _ hs) eT e heTfilter hg
        have heT : e.time = T := by
          by_contra hne'
          have hlt : T < e.time := lt_of_le_of_ne hTlee (fun h => hne' h.symm)
          have := hcov e.time ⟨e, heent, hetrig.1, rfl⟩ hlt
          exact absurd hetrig.2 (not_le.mpr this)
        have hcur' : m.lastTriggeredSceneTime < e.time := by rw [heT]; exact hcur
        obtain ⟨s, hscene⟩ := trigPred_scene_some (List.of_mem_filter hemem)
        have hfire : m.get_scene_trigger tq =
            (some s, { m with lastTriggeredSceneTime := e.time }) := by
          rw [get_scene_trigger_eq, hg]
          simp [hcur', hscene]
        rw [fireTimes_cons_fire _ _ _ _ _ hfire]
        rw [show ({ m with lastTriggeredSceneTime := e.time } :
              LyricMap).lastTriggeredSceneTime = T from heT]
        exact List.mem_cons_self _ _
    · -- the covering query is later; analyse what the head does
      rcases get_scene_trigger_cases m t with ⟨e, hg, hc, heq⟩ | heq
      · have hemem := List.mem_of_mem_getLast? hg
        have hetrig : trigPred t e = true := List.of_mem_filter hemem
        have heent : e ∈ m.entries := List.mem_of_mem_filter hemem
        rw [trigPred, Bool.and_eq_true, decide_eq_true_eq] at hetrig
        obtain ⟨s, hscene⟩ := trigPred_scene_some (List.of_mem_filter hemem)
        have hfire : m.get_scene_trigger t =
            (some s, { m with lastTriggeredSceneTime := e.time }) := by
          rw [heq, hscene]
        rw [fireTimes_cons_fire _ _ _ _ _ hfire]
        by_cases heT : e.time = T
        · rw [show ({ m with lastTriggeredSceneTime := e.time } :
                LyricMap).lastTriggeredSceneTime = T from heT]
          exact List.mem_cons_self _ _
        · have helt : e.time < T := by
            rcases lt_or_le e.time T with h | h
            · exact h
            · exfalso
              have hlt : T < e.time := lt_of_le_of_ne h (fun h' => heT h'.symm)
              have htlt := hcov e.time ⟨e, heent, hetrig.1, rfl⟩ hlt
              have hetq : e.time ≤ tq := le_trans hetrig.2 (hts.1 tq htq_tail)
              exact absurd hetq (not_le.mpr htlt)
          refine List.mem_cons_of_mem _ ?_
          exact ih { m with lastTriggeredSceneTime := e.time } T hs hts.2 htrig helt
            ⟨tq, htq_tail, hTle, hcov⟩
      · rw [fireTimes_cons_none _ _ _ _ heq]
        exact ih m T hs hts.2 htrig hcur ⟨tq, htq_tail, hTle, hcov⟩

/-- On a sorted list, relaxing the time bound of the filter only appends
entries at the end. -/
theorem filter_le_append (t1 t2 : ℚ) (h12 : t1 ≤ t2) :
    ∀ (l : List LyricEntry), timeSorted l →
      ∃ suf, l.filter (fun e => decide (e.time ≤ t2)) =
             l.filter (fun e => decide (e.time ≤ t1)) ++ suf := by
  intro l
  induction l with
  | nil => intro _; exact ⟨[], rfl⟩
  | cons a rest ih =>
    intro hp
    rw [timeSorted, List.pairwise_cons] at hp
    by_cases h1 : a.time ≤ t1
    · have h2 : a.time ≤ t2 := le_trans h1 h12
      obtain ⟨suf, hsuf⟩ := ih hp.2
      refine ⟨suf, ?_⟩
      simp [List.filter_cons, h1, h2, hsuf]
    · have hnil : (a :: rest).filter (fun e => decide (e.time ≤ t1)) = [] := by
        rw [List.filter_eq_nil_iff]
        intro b hb
        simp only [decide_eq_true_eq]
        rcases List.mem_cons.mp hb with hba | hbr
        · rw [hba]; exact h1
        · intro hble
          exact h1 (le_trans (hp.1 b hbr) hble)
      refine ⟨(a :: rest).filter (fun e => decide (e.time ≤ t2)), ?_⟩
      rw [hnil, List.nil_append]

/-! ## Claim theorems -/

/-- Claim C3: for a cue map with entries sorted ascending by time,
`get_lyric_at t` returns the entry with the greatest time ≤ t — the last
in sort order among ties, i.e. the last element of the sorted entries
filtered to times ≤ t — and returns none when the map is empty or `t`
precedes the first entry's time.  The function performs no mutation (it
is a pure function in this embedding, faithfully to the source, which
only reads).  For non-negative `t1 < t2` the entry returned for `t2`
never has time beyond `t2`, and is the same or a later entry than the
one for `t1`: the filtered list for `t1` is a prefix of the one for
`t2`, and the returned times are non-decreasing. -/
theorem get_lyric_at_spec (m : LyricMap) (t t1 t2 : ℚ)
    (hs : timeSorted m.entries) (h0 : 0 ≤ t1) (h12 : t1 < t2) :
    (m.get_lyric_at t =
      (m.entries.filter (fun e => decide (e.time ≤ t))).getLast?) ∧
    (m.entries = [] → m.get_lyric_at t = none) ∧
    (∀ e0 rest, m.entries = e0 :: rest → t < e0.time →
      m.get_lyric_at t = none) ∧
    (∀ e, m.get_lyric_at t2 = some e → e.time ≤ t2) ∧
    (∃ suf, m.entries.filter (fun e => decide (e.time ≤ t2)) =
            m.entries.filter (fun e => decide (e.time ≤ t1)) ++ suf) ∧
    (∀ e1, m.get_lyric_at t1 = some e1 →
      ∃ e2, m.get_lyric_at t2 = some e2 ∧ e1.time ≤ e2.time) := by
  have key : ∀ u : ℚ, m.get_lyric_at u =
      (m.entries.filter (fun e => decide (e.time ≤ u))).getLast? := by
    intro u
    unfold LyricMap.get_lyric_at
    rw [lyricAtGo_eq u m.entries hs, Option.or_none]
  refine ⟨key t, ?_, ?_, ?_, ?_, ?_⟩
  · intro h
    rw [key, h]
    rfl
  · intro e0 rest hE hlt
    rw [key]
    have hnil : m.entries.filter (fun e => decide (e.time ≤ t)) = [] := by
      rw [List.filter_eq_nil_iff]
      intro b hb
      simp only [decide_eq_true_eq]
      rw [hE] at hb hs
      rw [timeSorted, List.pairwise_cons] at hs
      rcases List.mem_cons.mp hb with hba | hbr
      · rw [hba]; exact not_le.mpr hlt
      · exact not_le.mpr (lt_of_lt_of_le hlt (hs.1 b hbr))
    rw [hnil]
    rfl
  · intro e he
    rw [key] at he
    have := List.of_mem_filter (List.mem_of_mem_getLast? he)
    simpa using this
  · exact filter_le_append t1 t2 (le_of_lt h12) m.entries hs
  · intro e1 h1
    rw [key] at h1
    obtain ⟨suf, hsuf⟩ := filter_le_append t1 t2 (le_of_lt h12) m.entries hs
    have h1mem := List.mem_of_mem_getLast? h1
    have hne2 : m.entries.filter (fun e => decide (e.time ≤ t2)) ≠ [] := by
      rw [hsuf]
      intro hcontra
      rcases List.append_eq_nil.mp hcontra with ⟨hl, _⟩
      rw [hl] at h1
      cases h1
    have hsome := List.getLast?_isSome.mpr hne2
    cases hg2 : (m.entries.filter (fun e => decide (e.time ≤ t2))).getLast? with
    | none =>
      rw [hg2] at hsome
      simp at hsome
    | some e2 =>
      refine ⟨e2, by rw [key, hg2], ?_⟩
      have h1mem2 : e1 ∈ m.entries.filter (fun e => decide (e.time ≤ t2)) := by
        rw [hsuf]
        exact List.mem_append_left _ h1mem
      exact time_le_getLast? _ (List.Pairwise.filter _ hs) e1 e2 h1mem2 hg2

/-- Concrete instantiation of the C3 theorem at the spec's §8 scenario
map and query times 0 < 5. -/
theorem get_lyric_at_spec_witness :
    exMapC.get_lyric_at 5 =
      (exMapC.entries.filter (fun e => decide (e.time ≤ 5))).getLast? :=
  (get_lyric_at_spec exMapC 5 0 5 (by decide) (by decide) (by decide)).1

/-- Claim C2: for a sorted cue map, `get_scene_trigger t` is the
one-shot edge trigger: it looks at the last entry in sort order among
those with a truthy scene trigger and time ≤ t (whose time is the
greatest such trigger time), returns its scene and advances the cursor
to its time exactly when that time is strictly above the stored cursor,
and returns none otherwise (including when no entry qualifies).
Consequently over any query sequence the fired times are strictly
increasing — each distinct scene-trigger time fires at most once — and
over a monotonically non-decreasing query sequence a trigger time `T`
still above the cursor fires exactly once provided some query falls at
or after `T` and before every later trigger time. -/
theorem get_scene_trigger_spec (m : LyricMap) (t T : ℚ) (ts : List ℚ)
    (hs : timeSorted m.entries) :
    (m.get_scene_trigger t =
      match (m.entries.filter (trigPred t)).getLast? with
      | none => (none, m)
      | some e =>
        if m.lastTriggeredSceneTime < e.time
        then (e.scene, { m with lastTriggeredSceneTime := e.time })
        else (none, m)) ∧
    (∀ e, (m.entries.filter (trigPred t)).getLast? = some e →
      sceneTruthy e.scene = true ∧ e.time ≤ t ∧
      ∀ f ∈ m.entries, sceneTruthy f.scene = true → f.time ≤ t →
        f.time ≤ e.time) ∧
    List.Pairwise (· < ·) (fireTimes m ts) ∧
    (List.Pairwise (· ≤ ·) ts → isTriggerTimeIn m.entries T →
      m.lastTriggeredSceneTime < T →
      (∃ tq ∈ ts, T ≤ tq ∧
        ∀ U, isTriggerTimeIn m.entries U → T < U → tq < U) →
      T ∈ fireTimes m ts) := by
  refine ⟨get_scene_trigger_eq m t, ?_, (fireTimes_increasing ts m).2,
    fun h1 h2 h3 h4 => fire_covered ts m T hs h1 h2 h3 h4⟩
  intro e hg
  have hemem := List.mem_of_mem_getLast? hg
  have hetrig : trigPred t e = true := List.of_mem_filter hemem
  rw [trigPred, Bool.and_eq_true, decide_eq_true_eq] at hetrig
  refine ⟨hetrig.1, hetrig.2, ?_⟩
  intro f hf hft hfle
  have hffilter : f ∈ m.entries.filter (trigPred t) := by
    rw [List.mem_filter]
    refine ⟨hf, ?_⟩
    rw [trigPred, Bool.and_eq_true, hft, decide_eq_true_eq]
    exact ⟨rfl, hfle⟩
  exact time_le_getLast? _ (List.Pairwise.filter _ hs) f e hffilter hg

/-- Concrete instantiation of the C2 theorem: on the §8 scenario map,
the trigger at time 10 fires during the query sequence 0, 5, 10. -/
theorem get_scene_trigger_spec_witness :
    (10 : ℚ) ∈ fireTimes exMapC [0, 5, 10] :=
  (get_scene_trigger_spec exMapC 0 10 [0, 5, 10] (by decide)).2.2.2
    (by decide) (by decide) (by decide)
    ⟨10, by decide, by decide, fun U _ h => h⟩

/-- Claim C4: with a transition alpha in [0,1] before the tick and a
non-negative dt, the per-tick update keeps the alpha in [0,1]: while a
transition is pending it advances the alpha by `dt / FADE_DURATION`
(with FADE_DURATION = 0.5s), and as soon as the advanced alpha reaches
or exceeds 1.0 the transition completes within the same tick, resetting
the alpha to 0 and clearing the pending name — it is never left at or
above 1.0 across ticks. -/
theorem update_scenes_alpha_spec (d : Director) (dt wall : ℚ)
    (h0 : 0 ≤ d.transition_alpha) (h1 : d.transition_alpha ≤ 1)
    (hdt : 0 ≤ dt) :
    FADE_DURATION = 1 / 2 ∧
    (0 ≤ ((d.update_scenes dt wall).1).transition_alpha ∧
      ((d.update_scenes dt wall).1).transition_alpha ≤ 1) ∧
    (∀ n, d.next_scene_name = some n →
      (d.transition_alpha + dt / FADE_DURATION < 1 →
        ((d.update_scenes dt wall).1).transition_alpha =
          d.transition_alpha + dt / FADE_DURATION) ∧
      (1 ≤ d.transition_alpha + dt / FADE_DURATION →
        ((d.update_scenes dt wall).1).transition_alpha = 0 ∧
        ((d.update_scenes dt wall).1).next_scene_name = none)) := by
  have hdiv : 0 ≤ dt / FADE_DURATION := by
    apply div_nonneg hdt
    rw [FADE_DURATION]
    norm_num
  refine ⟨rfl, ?_, ?_⟩
  · cases hns : d.next_scene_name with
    | none =>
      simp only [Director.update_scenes, hns]
      exact ⟨h0, h1⟩
    | some n =>
      by_cases hc : (1 : ℚ) ≤ d.transition_alpha + dt / FADE_DURATION
      · simp only [Director.update_scenes, hns, hc, if_true,
          Director.completeTransition]
        norm_num
      · simp only [Director.update_scenes, hns, hc, if_false]
        exact ⟨le_trans h0 (le_add_of_nonneg_right hdiv), le_of_lt (not_le.mp hc)⟩
  · intro n hns
    constructor
    · intro hlt
      have hc : ¬ (1 : ℚ) ≤ d.transition_alpha + dt / FADE_DURATION :=
        not_le.mpr hlt
      simp only [Director.update_scenes, hns, hc, if_false]
    · intro hge
      simp [Director.update_scenes, hns, hge, Director.completeTransition]

/-- Concrete instantiation of the C4 theorem: one tick of 1s on the
Director with a pending transition pushes the alpha past 1, so the
transition completes within the tick, resetting the alpha to 0. -/
theorem update_scenes_alpha_spec_witness :
    ((dC2.update_scenes 1 0).1).transition_alpha = 0 ∧
    ((dC2.update_scenes 1 0).1).next_scene_name = none := by
  have ha : dC2.transition_alpha = 0 := by decide
  exact ((update_scenes_alpha_spec dC2 1 0 (by rw [ha]) (by rw [ha]; norm_num)
      (by norm_num)).2.2 "starfield" (by decide)).2
    (by rw [ha, FADE_DURATION]; norm_num)

/-- Claim C5: when a transition to a registered pending name completes
(on the only reachable path, where no `transitioning_scene` instance
exists), the Director calls `exit()` on the outgoing current scene, if
any, before `enter()` on the incoming scene; the incoming scene is a
freshly constructed instance from the registry entry for the pending
name, built with a context carrying the current song time, it becomes
the new current scene, and exactly when the pending name is "finale"
its constructor additionally receives the cue map's finale message. -/
theorem complete_transition_spec (d : Director) (n : String) (wall : ℚ)
    (hts : d.transitioning_scene = none)
    (hn : d.next_scene_name = some n)
    (hreg : n ∈ d.scenes) :
    (∀ cs, d.current_scene = some cs →
      (d.completeTransition wall).2 = [Ev.exitEv cs.name, Ev.enterEv n]) ∧
    (d.current_scene = none →
      (d.completeTransition wall).2 = [Ev.enterEv n]) ∧
    ((d.completeTransition wall).1).current_scene = some
      { name := n
        ctx := { console_width := 80, console_height := 24
                 song_time := d.state_current_time, scene_time := 0
                 beat_intensity := 0, is_transitioning := false }
        finale_arg := if n = "finale" then some d.lyric_map.finale_message
                      else none } ∧
    ((d.completeTransition wall).1).next_scene_name = none ∧
    ((d.completeTransition wall).1).transition_alpha = 0 := by
  refine ⟨?_, ?_, ?_, ?_, ?_⟩
  · intro cs hcs
    simp [Director.completeTransition, hts, hn, hreg, hcs]
  · intro hcs
    simp [Director.completeTransition, hts, hn, hreg, hcs]
  · by_cases hf : n = "finale"
    · subst hf
      simp [Director.completeTransition, hts, hn, hreg]
    · simp [Director.completeTransition, hts, hn, hreg, hf]
  · simp [Director.completeTransition, hts, hn]
  · simp [Director.completeTransition, hts, hn]

/-- Concrete instantiation of the C5 theorem: completing the pending
"starfield" transition exits "intro" first, then enters "starfield". -/
theorem complete_transition_spec_witness :
    (dC2.completeTransition 7).2 =
      [Ev.exitEv "intro", Ev.enterEv "starfield"] :=
  (complete_transition_spec dC2 "starfield" 7 (by decide) (by decide)
      (by decide)).1
    { name := "intro"
      ctx := { console_width := 80, console_height := 24, song_time := 0
               scene_time := 0, beat_intensity := 0
               is_transitioning := false }
      finale_arg := none }
    (by decide)

/-- Claim C6: `transition_to` on an unregistered name raises the
unknown-scene `ValueError` — the exception fires before any assignment,
so the Director's state is untouched (the error carries no successor
state in this embedding) — while on a registered name it succeeds,
setting exactly the pending scene name (to that name) and the
transition alpha (to 0), leaving every other field unchanged. -/
theorem transition_to_spec (d : Director) (name : String) :
    (name ∉ d.scenes →
      d.transition_to name = .error ("Unknown scene: " ++ name)) ∧
    (name ∈ d.scenes →
      d.transition_to name =
        .ok { d with next_scene_name := some name, transition_alpha := 0 }) := by
  constructor
  · intro h
    simp [Director.transition_to, h]
  · intro h
    simp [Director.transition_to, h]

/-- Concrete instantiation of the C6 theorem: "nope" is rejected with
the unknown-scene error and "intro" is accepted. -/
theorem transition_to_spec_witness :
    dC1.transition_to "nope" = .error "Unknown scene: nope" ∧
    dC1.transition_to "intro" =
      .ok { dC1 with next_scene_name := some "intro", transition_alpha := 0 } :=
  ⟨(transition_to_spec dC1 "nope").1 (by decide),
   (transition_to_spec dC1 "intro").2 (by decide)⟩

/-- The particle budget never falls below `MIN_PARTICLE_BUDGET` over any
sequence of `monitor_performance` calls. -/
theorem monitor_budget_floor :
    ∀ (fts : List ℚ) (d : Director),
      MIN_PARTICLE_BUDGET ≤ d.particle_budget →
      MIN_PARTICLE_BUDGET ≤
        (fts.foldl Director.monitor_performance d).particle_budget := by
  intro fts
  induction fts with
  | nil => intro d h; exact h
  | cons ft rest ih =>
    intro d h
    rw [List.foldl_cons]
    apply ih
    unfold Director.monitor_performance
    by_cases hlag : FRAME_TIME * LAG_THRESHOLD_MULTIPLIER < ft <;>
      by_cases hft : 0 < ft <;>
        simp [hlag, hft] <;>
          first
            | exact le_max_left _ _
            | exact h

/-- The derived FPS after one `monitor_performance` call. -/
theorem monitor_performance_fps (d : Director) (ft : ℚ) :
    (d.monitor_performance ft).fps = if 0 < ft then 1 / ft else d.fps := by
  unfold Director.monitor_performance
  by_cases hft : 0 < ft <;>
    by_cases hlag : FRAME_TIME * LAG_THRESHOLD_MULTIPLIER < ft <;>
      simp [hft, hlag]

/-- The particle budget after one `monitor_performance` call. -/
theorem monitor_performance_budget (d : Director) (ft : ℚ) :
    (d.monitor_performance ft).particle_budget =
      if FRAME_TIME * LAG_THRESHOLD_MULTIPLIER < ft
      then max MIN_PARTICLE_BUDGET (d.particle_budget * 3 / 4)
      else d.particle_budget := by
  unfold Director.monitor_performance
  by_cases hft : 0 < ft <;>
    by_cases hlag : FRAME_TIME * LAG_THRESHOLD_MULTIPLIER < ft <;>
      simp [hft, hlag]

/-- Claim C7: `monitor_performance` sets the derived FPS to
1/observedFrameTime exactly when the observed frame time is positive
(never dividing by zero), and multiplies the particle budget by 0.75
(truncated, floored at MIN_PARTICLE_BUDGET = 50) exactly when the
observed frame time exceeds FRAME_TIME * LAG_THRESHOLD_MULTIPLIER; one
call at twice the target frame time from budget 500 yields 375, and no
sequence of calls takes a budget that started at or above the floor
below 50. -/
theorem monitor_performance_spec (d : Director) (ft : ℚ) (fts : List ℚ)
    (hb : MIN_PARTICLE_BUDGET ≤ d.particle_budget) :
    ((0 < ft → (d.monitor_performance ft).fps = 1 / ft) ∧
     (ft ≤ 0 → (d.monitor_performance ft).fps = d.fps)) ∧
    ((FRAME_TIME * LAG_THRESHOLD_MULTIPLIER < ft →
        (d.monitor_performance ft).particle_budget =
          max MIN_PARTICLE_BUDGET (d.particle_budget * 3 / 4)) ∧
     (ft ≤ FRAME_TIME * LAG_THRESHOLD_MULTIPLIER →
        (d.monitor_performance ft).particle_budget = d.particle_budget)) ∧
    (d.particle_budget = 500 →
      (d.monitor_performance (FRAME_TIME * 2)).particle_budget = 375) ∧
    MIN_PARTICLE_BUDGET ≤
      (fts.foldl Director.monitor_performance d).particle_budget := by
  have hlag2 : FRAME_TIME * LAG_THRESHOLD_MULTIPLIER < FRAME_TIME * 2 := by
    rw [FRAME_TIME, LAG_THRESHOLD_MULTIPLIER, TARGET_FPS]
    norm_num
  refine ⟨⟨?_, ?_⟩, ⟨?_, ?_⟩, ?_, monitor_budget_floor fts d hb⟩
  · intro h
    rw [monitor_performance_fps, if_pos h]
  · intro h
    rw [monitor_performance_fps, if_neg (not_lt.mpr h)]
  · intro hlag
    rw [monitor_performance_budget, if_pos hlag]
  · intro h
    rw [monitor_performance_budget, if_neg (not_lt.mpr h)]
  · intro h500
    rw [monitor_performance_budget, if_pos hlag2, h500]
    decide

/-- Concrete instantiation of the C7 theorem: one heavy frame on a fresh
Director (budget 500) drops the budget to exactly 375. -/
theorem monitor_performance_spec_witness :
    ((Director.init exMapC).monitor_performance (FRAME_TIME * 2)).particle_budget
      = 375 :=
  (monitor_performance_spec (Director.init exMapC) (FRAME_TIME * 2) []
      (by decide)).2.2.1 rfl

/-- Claim C9: a particle with gravity 9.8, drag 0, life 1.0 and max_life
2.0 loses exactly `dt / max_life` of life per update; after four updates
of dt = 0.5 from full life, its life is exactly 0 and `is_alive` is
false. -/
theorem particle_update_life_spec (p : Particle) (dt : ℚ)
    (hg : p.gravity = 49 / 5) (hd : p.drag = 0) (hml : p.max_life = 2) :
    (p.update dt).life = p.life - dt / 2 ∧
    ((((testParticle.update (1/2)).update (1/2)).update (1/2)).update (1/2)).life
        = 0 ∧
    ((((testParticle.update (1/2)).update (1/2)).update (1/2)).update (1/2)).is_alive
        = false := by
  refine ⟨?_, ?_, ?_⟩
  · simp [Particle.update, hml]
  · norm_num [Particle.update, testParticle]
  · norm_num [Particle.update, Particle.is_alive, testParticle]

/-- Concrete instantiation of the C9 theorem: one update of dt = 0.5
takes the test particle's life from 1 to 1 − 0.25. -/
theorem particle_update_life_spec_witness :
    (testParticle.update (1/2)).life = testParticle.life - (1/2) / 2 :=
  (particle_update_life_spec testParticle (1/2) rfl rfl rfl).1

/-- Membership is preserved by the stable insertion. -/
theorem mem_insertByTime (a : LyricEntry) :
    ∀ (l : List LyricEntry) (x : LyricEntry),
      x ∈ insertByTime a l ↔ x = a ∨ x ∈ l := by
  intro l
  induction l with
  | nil => intro x; simp [insertByTime]
  | cons y ys ih =>
    intro x
    by_cases h : y.time < a.time
    · simp only [insertByTime, if_pos h, List.mem_cons, ih]
      tauto
    · simp only [insertByTime, if_neg h, List.mem_cons]

/-- Membership is preserved by the construction-time sort. -/
theorem mem_sortByTime :
    ∀ (l : List LyricEntry) (x : LyricEntry), x ∈ sortByTime l ↔ x ∈ l := by
  intro l
  induction l with
  | nil => intro x; simp [sortByTime]
  | cons a rest ih =>
    intro x
    have hstep : sortByTime (a :: rest) = insertByTime a (sortByTime rest) := rfl
    rw [hstep, mem_insertByTime, ih x, List.mem_cons]

/-- A `LyricEntry` accepted by the `__post_init__` check has a
non-negative time. -/
theorem mkLyricEntry_ok_nonneg {t : ℚ} {txt : String} {sc : Option String}
    {e : LyricEntry} (h : mkLyricEntry t txt sc = .ok e) : 0 ≤ e.time := by
  unfold mkLyricEntry at h
  by_cases ht : t < 0
  · rw [if_pos ht] at h
    cases h
  · rw [if_neg ht] at h
    cases h
    exact not_lt.mp ht

/-- Every entry list produced by the loading loop consists of entries
with non-negative times. -/
theorem buildEntries_nonneg :
    ∀ (items : List LyricItem) (es : List LyricEntry),
      buildEntries items = .ok es → ∀ e ∈ es, 0 ≤ e.time := by
  intro items
  induction items with
  | nil =>
    intro es h e he
    simp only [buildEntries] at h
    cases h
    cases he
  | cons item rest ih =>
    intro es h e he
    rw [buildEntries] at h
    cases hmk : mkLyricEntry item.time item.text item.scene with
    | error msg =>
      rw [hmk] at h
      simp [Bind.bind, Except.bind] at h
    | ok e0 =>
      rw [hmk] at h
      cases hrest : buildEntries rest with
      | error msg =>
        rw [hrest] at h
        simp [Bind.bind, Except.bind] at h
      | ok es0 =>
        rw [hrest] at h
        simp only [Bind.bind, Except.bind, Pure.pure, Except.pure,
          Except.ok.injEq] at h
        rw [← h] at he
        rcases List.mem_cons.mp he with he0 | hes0
        · rw [he0]
          exact mkLyricEntry_ok_nonneg hmk
        · exact ih es0 hrest e hes0

/-- Claim C10: constructing a `LyricEntry` with a negative time raises a
`ValueError`, so every entry held by a map successfully loaded from JSON
has a non-negative time — a cue record with a negative timestamp can
never enter a cue map silently. -/
theorem lyric_entry_nonneg_spec (t : ℚ) (txt : String) (sc : Option String)
    (data : LyricsJson) (m : LyricMap)
    (hneg : t < 0) (hok : LyricMap.from_json data = .ok m) :
    mkLyricEntry t txt sc = .error "Lyric time cannot be negative" ∧
    ∀ e ∈ m.entries, 0 ≤ e.time := by
  constructor
  · unfold mkLyricEntry
    rw [if_pos hneg]
  · intro e he
    unfold LyricMap.from_json at hok
    cases hb : buildEntries data.lyrics with
    | error msg =>
      rw [hb] at hok
      simp [Bind.bind, Except.bind] at hok
    | ok es =>
      rw [hb] at hok
      simp only [Bind.bind, Except.bind, Pure.pure, Except.pure,
        Except.ok.injEq] at hok
      rw [← hok] at he
      have hme : e ∈ sortByTime es := he
      rw [mem_sortByTime] at hme
      exact buildEntries_nonneg data.lyrics es hb e hme

/-- Concrete instantiation of the C10 theorem: a negative-time entry is
rejected, and an entry of the loaded two-record document has a
non-negative time. -/
theorem lyric_entry_nonneg_spec_witness :
    mkLyricEntry (-1) "late" none = .error "Lyric time cannot be negative" ∧
    (0 : ℚ) ≤ (⟨0, "a", none⟩ : LyricEntry).time := by
  have h := lyric_entry_nonneg_spec (-1) "late" none exJson exJsonMap
    (by norm_num) (by rfl)
  exact ⟨h.1, h.2 ⟨0, "a", none⟩ (by decide)⟩

/-- `_complete_transition` never makes `transitioning_scene` non-None:
the only assignments in the source are `None` (src/director.py lines 65
and 145), so the field stays `None` forever. -/
theorem completeTransition_transitioning_none (d : Director) (wall : ℚ)
    (h : d.transitioning_scene = none) :
    ((d.completeTransition wall).1).transitioning_scene = none := by
  cases hns : d.next_scene_name with
  | none => simp [Director.completeTransition, h, hns]
  | some n =>
    by_cases hr : n ∈ d.scenes <;>
      simp [Director.completeTransition, h, hns, hr]

/-- `update_scenes` preserves `transitioning_scene = None`: the blended
double-update branch is dead code on every reachable state. -/
theorem update_scenes_transitioning_none (d : Director) (dt wall : ℚ)
    (h : d.transitioning_scene = none) :
    ((d.update_scenes dt wall).1).transitioning_scene = none := by
  cases hns : d.next_scene_name with
  | none => simp [Director.update_scenes, hns, h]
  | some n =>
    by_cases hc : (1 : ℚ) ≤ d.transition_alpha + dt / FADE_DURATION
    · have hstep := completeTransition_transitioning_none
        { d with next_scene_name := some n
                 transition_alpha := d.transition_alpha + dt / FADE_DURATION }
        wall h
      simp only [Director.update_scenes, hns, hc, if_true]
      exact hstep
    · simp only [Director.update_scenes, hns, hc, if_false]
      exact h

/-- Claim C1 (code bug): the spec and the docstrings of
`Director.update_scenes` and `Director.render_scenes` (src/director.py
lines 101-102 and 125-126) say that during a transition both the current
and the incoming scene are updated and rendered, blended at alphas
`1 - transitionAlpha` and `transitionAlpha`.  The code never assigns
`transitioning_scene` (it is only ever set to `None`, src/director.py
lines 65 and 145), so on the concrete reachable state `dC2` — current
scene "intro", pending transition to "starfield" — a tick updates only
the current scene and renders it alone at alpha = 1.0 while the
transition is still in progress. -/
theorem transition_rendering_code_bug :
    dC2.next_scene_name = some "starfield" ∧
    dC2.transitioning_scene = none ∧
    (dC2.update_scenes (1/10) 7).2 = [Ev.updateEv "intro"] ∧
    ((dC2.update_scenes (1/10) 7).1).next_scene_name = some "starfield" ∧
    ((dC2.update_scenes (1/10) 7).1).render_scenes =
      [Ev.renderEv "intro" 1] := by
  have ha : dC2.transition_alpha = 0 := by decide
  have hns : dC2.next_scene_name = some "starfield" := by decide
  have hts : dC2.transitioning_scene = none := by decide
  have hcur : dC2.current_scene = some
      { name := "intro"
        ctx := { console_width := 80, console_height := 24, song_time := 0
                 scene_time := 0, beat_intensity := 0
                 is_transitioning := false }
        finale_arg := none } := by decide
  have hc : ¬ (1 : ℚ) ≤ dC2.transition_alpha + (1/10) / FADE_DURATION := by
    rw [ha, FADE_DURATION]
    norm_num
  refine ⟨hns, hts, ?_, ?_, ?_⟩ <;>
    simp only [Director.update_scenes, Director.render_scenes, hns, hts, hcur,
      hc, if_false, List.append_nil, List.nil_append]

/-- Claim C8 (code bug): when the lyrics file is missing, `load_assets`
calls `LyricMap(lyrics=[], ...)` (src/main.py line 106-109), but
`LyricMap.__init__` has no parameter named `lyrics` (its parameter is
`entries`, src/lyric_sync.py line 29), so the call raises `TypeError`
instead of producing the empty default cue map. -/
theorem load_assets_missing_lyrics_bug :
    kwargsBindOk lyricMapInitParams lyricMapInitDefaulted
      ["lyrics", "finale_message"] = false ∧
    loadAssetsMissingLyrics =
      .error "TypeError: __init__ got an unexpected keyword argument lyrics" :=
  ⟨rfl, rfl⟩

end NinasBeats
